import Mathlib

/-!
Verification of the Codebase Prompt Generator (src/main.py).

The program is embedded shallowly:
* filesystem paths (`pathlib.Path`) become `PyPath`, an absolute-flag plus a
  list of path segments; `Path.relative_to`, `Path.as_posix`, `str(path)` and
  `Path.resolve` become the corresponding Lean functions (symlink resolution
  is not modelled: `resolve` of a relative path prepends a caller-supplied
  current directory);
* file contents and persisted stores become `String`s; a file that may be
  missing becomes `Option String`; a read that may fail becomes
  `Option String` (with `none` for a raised exception);
* Python string operations are modelled character-exactly on `List Char`:
  `str.startswith` is string-prefix, `str.strip` drops leading and trailing
  whitespace, `str.replace` on the one-character pattern used by the code is
  a character-wise map, `sep.join` interleaves the separator, and line
  iteration over a file splits the text on the newline character.
-/

/-- The single-quote character (code point 39). -/
def squote : Char := Char.ofNat 39

/-- The backslash character. -/
def bslash : Char := Char.ofNat 92

/-- The newline character. -/
def nlChar : Char := Char.ofNat 10

/-- One-character string holding a single quote. -/
def squoteStr : String := String.singleton squote

/-- One-character string holding a backslash. -/
def bslashStr : String := String.singleton bslash

/-- Python `str.startswith`: plain string-prefix test. -/
def pyStartsWith (s pre : String) : Bool :=
  pre.data.isPrefixOf s.data

/-- Whitespace characters recognised by Python `str.strip()` (the ASCII ones:
space, tab, newline, carriage return, vertical tab, form feed). -/
def pyIsSpace (c : Char) : Bool :=
  c = Char.ofNat 32 || c = Char.ofNat 9 || c = Char.ofNat 10 ||
  c = Char.ofNat 13 || c = Char.ofNat 11 || c = Char.ofNat 12

/-- Strip leading and trailing whitespace from a character list. -/
def stripChars (l : List Char) : List Char :=
  ((l.dropWhile pyIsSpace).reverse.dropWhile pyIsSpace).reverse

/-- Python `str.strip()`. -/
def pyStrip (s : String) : String :=
  String.mk (stripChars s.data)

/-- Python `sep.join(parts)`. -/
def pyJoin (sep : String) : List String → String
  | [] => ""
  | [x] => x
  | x :: y :: rest => x ++ sep ++ pyJoin sep (y :: rest)

/-- One step of the quote-escaping replacement: a single quote becomes
backslash-then-quote, anything else is kept. -/
def escapeStep (c : Char) : List Char :=
  if c = squote then [bslash, squote] else [c]

/-- Quote escaping on a character list. -/
def escapeChars (l : List Char) : List Char :=
  l.foldr (fun c acc => escapeStep c ++ acc) []

/-- The `str.replace` call used by the serializers, replacing each single
quote with backslash-then-quote (the pattern is a single character, so the
replacement is a character-wise expansion). -/
def pyReplaceQuote (s : String) : String :=
  String.mk (escapeChars s.data)

/-- Split a character list at newline characters (Python line iteration with
the trailing newline already removed; the code strips every line anyway). -/
def splitNl : List Char → List (List Char)
  | [] => [[]]
  | c :: cs =>
    match splitNl cs with
    | [] => [[c]]
    | h :: t => if c = nlChar then [] :: h :: t else (c :: h) :: t

/-- The lines of a text file, as strings. -/
def fileLines (s : String) : List String :=
  (splitNl s.data).map String.mk

/-- Python `os.path.isabs` on posix: the string starts with a slash. -/
def isabs (s : String) : Bool :=
  pyStartsWith s "/"

/-- A `pathlib.Path`: whether it is absolute, plus its segments. -/
structure PyPath where
  abs : Bool
  segs : List String
deriving DecidableEq, Repr

/-- `Path.as_posix()`: segments joined by slashes; the empty relative path
prints as `.` exactly as `pathlib` does. -/
def PyPath.as_posix (p : PyPath) : String :=
  if p.segs = [] ∧ p.abs = false then "." else
    (if p.abs then "/" else "") ++ pyJoin "/" p.segs

/-- `str(path)` (posix separators). -/
def PyPath.toStr (p : PyPath) : String :=
  p.as_posix

/-- `Path.relative_to`: succeeds exactly when `root` is an initial segment
run of `p` with the same absoluteness, returning the remainder. -/
def PyPath.relative_to (p root : PyPath) : Option PyPath :=
  if p.abs = root.abs ∧ root.segs.isPrefixOf p.segs then
    some ⟨false, p.segs.drop root.segs.length⟩
  else
    none

/-- `Path.resolve()` relative to a current working directory `cwd` (symlink
and dot-segment resolution is not modelled). -/
def PyPath.resolve (p cwd : PyPath) : PyPath :=
  if p.abs then p else ⟨true, cwd.segs ++ p.segs⟩

/-- `should_ignore(file_path, target_folder, ignore_set)` from src/main.py:
if the relative-path computation fails the file is ignored; otherwise any
pattern matches by string prefix, absolute patterns against the resolved
absolute path and other patterns against the root-relative posix path. -/
def should_ignore (cwd file_path target_folder : PyPath)
    (ignore_set : List String) : Bool :=
  let abs_file := file_path.resolve cwd
  match file_path.relative_to target_folder with
  | none => true
  | some rel =>
    ignore_set.any (fun ig =>
      if isabs ig then pyStartsWith abs_file.toStr ig
      else pyStartsWith rel.as_posix ig)

/-- `get_all_files(target_folder, ignore_set)` from src/main.py, over an
explicit enumeration `fs` of the paths `rglob` yields paired with their
`is_file()` answer: keep the regular files that are not ignored. -/
def get_all_files (cwd target_folder : PyPath) (fs : List (PyPath × Bool))
    (ignore_set : List String) : List PyPath :=
  (fs.filter (fun e => e.2 && !should_ignore cwd e.1 target_folder ignore_set)).map
    (fun e => e.1)

/-- Python string comparison on two character lists: lexicographic by code
point. -/
def lexLeChars : List Char → List Char → Bool
  | [], _ => true
  | _ :: _, [] => false
  | a :: as, b :: bs =>
    if a.toNat < b.toNat then true
    else if b.toNat < a.toNat then false
    else lexLeChars as bs

/-- Python `<=` on strings: lexicographic by code point. -/
def pyStrLe (a b : String) : Bool :=
  lexLeChars a.data b.data

/-- Python `sorted` on a list of strings (the sort used when persisting the
ignore set). -/
def pySorted (l : List String) : List String :=
  List.insertionSort (fun a b => pyStrLe a b = true) l

/-- `load_ignore_paths()` from src/main.py. The ignore file is `none` when
missing. Each line is stripped; non-empty results are collected into a set,
modelled as a deduplicated list. -/
def load_ignore_paths (file : Option String) : List String :=
  match file with
  | none => []
  | some s => (((fileLines s).map pyStrip).filter (fun l => l ≠ "")).dedup

/-- `save_ignore_paths(ignore_set)` from src/main.py: the text written to
the ignore file, each pattern of the sorted set followed by a newline. -/
def save_ignore_paths (ignore_set : List String) : String :=
  pyJoin "" ((pySorted ignore_set).map (fun p => p ++ "\n"))

/-- One line of `target_files.txt` processing from
`load_individual_files_from_file` in src/main.py: strip, skip empty lines,
keep the path when the existence check passes (otherwise warn and skip).
`is_file` is the filesystem oracle for `os.path.isfile`. -/
def validPathsA (is_file : String → Bool) (src : Option String) : List String :=
  match src with
  | none => []
  | some s => (((fileLines s).map pyStrip).filter
      (fun l => l ≠ "" && is_file l))

/-- The `individual_files.sh` fallback processing from
`load_individual_files_from_file` in src/main.py: strip, skip lines that
start with `#` or are blank, keep lines passing the existence check. -/
def validPathsB (is_file : String → Bool) (src : Option String) : List String :=
  match src with
  | none => []
  | some s => (((fileLines s).map pyStrip).filter
      (fun l => !(pyStartsWith l "#" || l = "") && is_file l))

/-- `load_individual_files_from_file()` from src/main.py: try
`target_files.txt`; if it yields no valid path (including when absent), try
`individual_files.sh`; return `none` when neither yields a valid path. -/
def load_individual_files_from_file (is_file : String → Bool)
    (targetTxt scriptSh : Option String) : Option (List String) :=
  let fromA := validPathsA is_file targetTxt
  if fromA ≠ [] then some fromA
  else
    let fromB := validPathsB is_file scriptSh
    if fromB ≠ [] then some fromB else none

/-- One rendered entry of the prompt: the escaped identifier and escaped
contents, each wrapped in single quotes, joined by ` with `. -/
def mkEntry (ident contents : String) : String :=
  squoteStr ++ pyReplaceQuote ident ++ squoteStr ++ " with " ++ squoteStr ++
    pyReplaceQuote contents ++ squoteStr

/-- The entry-collection loop of `generate_prompt` in src/main.py. Each file
is a path paired with the outcome of reading it (`none` when the read
raises). The relative path is computed first; a failure there propagates as
an uncaught exception (`none` overall). A failed read skips the entry; a
whitespace-only content skips the entry. -/
def bulkEntries (target_folder : PyPath) :
    List (PyPath × Option String) → Option (List String)
  | [] => some []
  | (p, readResult) :: rest =>
    match p.relative_to target_folder with
    | none => none
    | some rel =>
      match readResult with
      | none => bulkEntries target_folder rest
      | some contents =>
        if pyStrip contents = "" then bulkEntries target_folder rest
        else (bulkEntries target_folder rest).map
          (fun es => mkEntry rel.as_posix contents :: es)

/-- `generate_prompt(target_folder, files)` from src/main.py: the header
line, the entries joined by comma-newline, and a final dot line, all joined
by newlines; `none` when a relative-path computation raises. -/
def generate_prompt (target_folder : PyPath)
    (files : List (PyPath × Option String)) : Option String :=
  (bulkEntries target_folder files).map
    (fun es => pyJoin "\n" ["My codebase includes", pyJoin ",\n" es, "."])

/-- The entry-collection loop of `generate_prompt_individual` in
src/main.py: the identifier is `str(file_path)` as supplied; read failures
and whitespace-only contents skip the entry; nothing can raise. -/
def individualEntries : List (PyPath × Option String) → List String
  | [] => []
  | (p, readResult) :: rest =>
    match readResult with
    | none => individualEntries rest
    | some contents =>
      if pyStrip contents = "" then individualEntries rest
      else mkEntry p.toStr contents :: individualEntries rest

/-- `generate_prompt_individual(files)` from src/main.py. -/
def generate_prompt_individual (files : List (PyPath × Option String)) : String :=
  pyJoin "\n" ["My codebase includes", pyJoin ",\n" (individualEntries files), "."]

/-! ### Theorems -/

/-- The empty string is a prefix of every string. -/
theorem pyStartsWith_empty_pattern (t : String) : pyStartsWith t "" = true := by
  show List.isPrefixOf [] t.data = true
  cases t.data <;> rfl

/-- C4: for every file path, root, and pattern set, if the file path is not
under the root (computing the root-relative path fails), `should_ignore`
returns true regardless of the pattern set (fail-safe exclude). -/
theorem should_ignore_true_of_not_under_root
    (cwd file_path target_folder : PyPath) (ignore_set : List String)
    (h : file_path.relative_to target_folder = none) :
    should_ignore cwd file_path target_folder ignore_set = true := by
  unfold should_ignore
  rw [h]

/-- Witness for C4: a concrete file outside the root is ignored even with an
empty pattern set. -/
theorem should_ignore_true_of_not_under_root_witness :
    PyPath.relative_to ⟨false, ["elsewhere", "x.txt"]⟩ ⟨false, ["root"]⟩ = none ∧
    should_ignore ⟨true, ["cwd"]⟩ ⟨false, ["elsewhere", "x.txt"]⟩ ⟨false, ["root"]⟩ [] = true :=
  ⟨by decide,
    should_ignore_true_of_not_under_root ⟨true, ["cwd"]⟩ ⟨false, ["elsewhere", "x.txt"]⟩
      ⟨false, ["root"]⟩ [] (by decide)⟩

/-- C10: if the pattern set contains the empty string, `should_ignore`
returns true for every file under the root, and a bulk scan
(`get_all_files`) returns no file at all. -/
theorem empty_pattern_excludes_everything
    (cwd target_folder : PyPath) (ignore_set : List String)
    (hmem : "" ∈ ignore_set) :
    (∀ file_path : PyPath, (file_path.relative_to target_folder).isSome →
      should_ignore cwd file_path target_folder ignore_set = true) ∧
    (∀ fs : List (PyPath × Bool), get_all_files cwd target_folder fs ignore_set = []) := by
  have hignore : ∀ file_path : PyPath,
      should_ignore cwd file_path target_folder ignore_set = true := by
    intro file_path
    unfold should_ignore
    cases hrel : file_path.relative_to target_folder with
    | none => rfl
    | some rel =>
      simp only [List.any_eq_true]
      refine ⟨"", hmem, ?_⟩
      have habs : isabs "" = false := by decide
      rw [habs]
      simp [pyStartsWith_empty_pattern]
  refine ⟨fun fp _ => hignore fp, fun fs => ?_⟩
  unfold get_all_files
  have : fs.filter (fun e => e.2 && !should_ignore cwd e.1 target_folder ignore_set) = [] := by
    apply List.filter_eq_nil_iff.mpr
    intro e _
    simp [hignore e.1]
  rw [this]
  rfl

/-- Witness for C10: with the concrete pattern set containing only the empty
string, a concrete file under the root is ignored and a concrete scan is
empty. -/
theorem empty_pattern_excludes_everything_witness :
    (PyPath.relative_to ⟨false, ["root", "a.txt"]⟩ ⟨false, ["root"]⟩).isSome = true ∧
    should_ignore ⟨true, []⟩ ⟨false, ["root", "a.txt"]⟩ ⟨false, ["root"]⟩ [""] = true ∧
    get_all_files ⟨true, []⟩ ⟨false, ["root"]⟩
      [(⟨false, ["root", "a.txt"]⟩, true), (⟨false, ["root", "b", "c.txt"]⟩, true)] [""] = [] := by
  have h := empty_pattern_excludes_everything ⟨true, []⟩ ⟨false, ["root"]⟩ [""]
    (by decide)
  exact ⟨by decide, h.1 ⟨false, ["root", "a.txt"]⟩ (by decide), h.2 _⟩

/-- C1: ignore matching is plain string-prefix matching, not path-segment
matching. For every root, pattern set, and file under the root: a relative
pattern that is a string prefix of the root-relative posix path makes
`should_ignore` return true; when every pattern is relative, `should_ignore`
is true exactly when some pattern is a string prefix of that path; and the
relative pattern `build` matches both `build/out.txt` and `build2/out.txt`. -/
theorem ignore_matching_is_string_prefix_matching
    (cwd file_path target_folder : PyPath) (ignore_set : List String)
    (rel : PyPath) (hrel : file_path.relative_to target_folder = some rel) :
    (∀ P ∈ ignore_set, isabs P = false → pyStartsWith rel.as_posix P = true →
      should_ignore cwd file_path target_folder ignore_set = true) ∧
    ((∀ P ∈ ignore_set, isabs P = false) →
      (should_ignore cwd file_path target_folder ignore_set = true ↔
        ∃ P ∈ ignore_set, pyStartsWith rel.as_posix P = true)) ∧
    (should_ignore ⟨true, []⟩ ⟨false, ["build", "out.txt"]⟩ ⟨false, []⟩ ["build"] = true ∧
     should_ignore ⟨true, []⟩ ⟨false, ["build2", "out.txt"]⟩ ⟨false, []⟩ ["build"] = true) := by
  have hunfold : should_ignore cwd file_path target_folder ignore_set =
      ignore_set.any (fun ig =>
        if isabs ig then pyStartsWith (file_path.resolve cwd).toStr ig
        else pyStartsWith rel.as_posix ig) := by
    unfold should_ignore
    rw [hrel]
  refine ⟨?_, ?_, by decide, by decide⟩
  · intro P hP habs hpre
    rw [hunfold, List.any_eq_true]
    exact ⟨P, hP, by rw [habs]; simpa using hpre⟩
  · intro hall
    rw [hunfold, List.any_eq_true]
    constructor
    · rintro ⟨P, hP, hmatch⟩
      refine ⟨P, hP, ?_⟩
      rw [hall P hP] at hmatch
      simpa using hmatch
    · rintro ⟨P, hP, hpre⟩
      exact ⟨P, hP, by rw [hall P hP]; simpa using hpre⟩

/-- Witness for C1: with the single relative pattern `src`, the file
`src2/file` under the root is ignored (prefix-match looseness), via the
equivalence at a concrete input. -/
theorem ignore_matching_is_string_prefix_matching_witness :
    should_ignore ⟨true, []⟩ ⟨false, ["src2", "file"]⟩ ⟨false, []⟩ ["src"] = true := by
  have h := ignore_matching_is_string_prefix_matching ⟨true, []⟩ ⟨false, ["src2", "file"]⟩
    ⟨false, []⟩ ["src"] ⟨false, ["src2", "file"]⟩ (by decide)
  exact h.1 "src" (by decide) (by decide) (by decide)

/-- C7: the individual list loader prefers source A; only when A yields zero
valid paths (including when the file is absent) does it consult source B;
it returns `none` exactly when neither source yields a valid path; and every
returned path passed the existence check. -/
theorem individual_loader_fallback_behavior
    (is_file : String → Bool) (targetTxt scriptSh : Option String) :
    (validPathsA is_file targetTxt ≠ [] →
      load_individual_files_from_file is_file targetTxt scriptSh =
        some (validPathsA is_file targetTxt)) ∧
    (validPathsA is_file targetTxt = [] → validPathsB is_file scriptSh ≠ [] →
      load_individual_files_from_file is_file targetTxt scriptSh =
        some (validPathsB is_file scriptSh)) ∧
    (load_individual_files_from_file is_file targetTxt scriptSh = none ↔
      validPathsA is_file targetTxt = [] ∧ validPathsB is_file scriptSh = []) ∧
    (∀ p ∈ validPathsA is_file targetTxt, is_file p = true) ∧
    (∀ p ∈ validPathsB is_file scriptSh, is_file p = true) := by
  refine ⟨?_, ?_, ?_, ?_, ?_⟩
  · intro hA
    unfold load_individual_files_from_file
    simp [hA]
  · intro hA hB
    unfold load_individual_files_from_file
    simp [hA, hB]
  · unfold load_individual_files_from_file
    by_cases hA : validPathsA is_file targetTxt = []
    · by_cases hB : validPathsB is_file scriptSh = []
      · simp [hA, hB]
      · simp [hA, hB]
    · simp [hA]
  · intro p hp
    unfold validPathsA at hp
    cases targetTxt with
    | none => simp at hp
    | some s =>
      simp only [List.mem_filter] at hp
      exact (Bool.and_eq_true ..).mp hp.2 |>.2
  · intro p hp
    unfold validPathsB at hp
    cases scriptSh with
    | none => simp at hp
    | some s =>
      simp only [List.mem_filter] at hp
      exact (Bool.and_eq_true ..).mp hp.2 |>.2

/-- Witness for C7: a concrete source A with one missing and one existing
path yields only the existing path; with source A absent and a concrete
source B, the comment line is skipped; with both empty the result is
`none`. -/
theorem individual_loader_fallback_behavior_witness :
    load_individual_files_from_file (fun s => s = "good.txt")
        (some ("missing.txt\n" ++ "good.txt\n")) none = some ["good.txt"] ∧
    load_individual_files_from_file (fun s => s = "good.txt") none
        (some ("#!/bin/bash\n" ++ "good.txt\n")) = some ["good.txt"] ∧
    load_individual_files_from_file (fun s => s = "good.txt") none none = none := by
  refine ⟨?_, ?_, ?_⟩
  · have h := individual_loader_fallback_behavior (fun s => s = "good.txt")
      (some ("missing.txt\n" ++ "good.txt\n")) none
    have := h.1 (by decide)
    rw [this]
    decide
  · have h := individual_loader_fallback_behavior (fun s => s = "good.txt") none
      (some ("#!/bin/bash\n" ++ "good.txt\n"))
    have := h.2.1 (by decide) (by decide)
    rw [this]
    decide
  · have h := individual_loader_fallback_behavior (fun s => s = "good.txt") none none
    exact h.2.2.1.mpr ⟨by decide, by decide⟩

/-- Every entry collected by the bulk loop comes from a file whose stripped
content is non-empty, and has the rendered entry form. -/
theorem bulkEntries_mem_shape (target_folder : PyPath) :
    ∀ (files : List (PyPath × Option String)) (entries : List String),
      bulkEntries target_folder files = some entries →
      ∀ e ∈ entries, ∃ ident contents, pyStrip contents ≠ "" ∧ e = mkEntry ident contents
  | [], entries, h => by
    unfold bulkEntries at h
    cases h
    intro e he
    simp at he
  | (p, readResult) :: rest, entries, h => by
    unfold bulkEntries at h
    cases hrel : p.relative_to target_folder with
    | none => rw [hrel] at h; cases h
    | some rel =>
      rw [hrel] at h
      cases readResult with
      | none => exact bulkEntries_mem_shape target_folder rest entries h
      | some contents =>
        dsimp only at h
        by_cases hstrip : pyStrip contents = ""
        · rw [if_pos hstrip] at h
          exact bulkEntries_mem_shape target_folder rest entries h
        · rw [if_neg hstrip] at h
          cases hrest : bulkEntries target_folder rest with
          | none => rw [hrest] at h; cases h
          | some es =>
            rw [hrest] at h
            cases h
            intro e he
            rcases List.mem_cons.mp he with heq | hmem
            · exact ⟨rel.as_posix, contents, hstrip, heq⟩
            · exact bulkEntries_mem_shape target_folder rest es hrest e hmem

/-- Every entry collected by the individual loop comes from a file whose
stripped content is non-empty, and has the rendered entry form. -/
theorem individualEntries_mem_shape :
    ∀ (files : List (PyPath × Option String)),
      ∀ e ∈ individualEntries files,
        ∃ ident contents, pyStrip contents ≠ "" ∧ e = mkEntry ident contents
  | [] => by intro e he; simp [individualEntries] at he
  | (p, readResult) :: rest => by
    intro e he
    unfold individualEntries at he
    cases readResult with
    | none => exact individualEntries_mem_shape rest e he
    | some contents =>
      dsimp only at he
      by_cases hstrip : pyStrip contents = ""
      · rw [if_pos hstrip] at he
        exact individualEntries_mem_shape rest e he
      · rw [if_neg hstrip] at he
        rcases List.mem_cons.mp he with heq | hmem
        · exact ⟨p.toStr, contents, hstrip, heq⟩
        · exact individualEntries_mem_shape rest e hmem

/-- C2: the rendered prompt is exactly the header line, the surviving
entries joined by comma-newline, and a final lone-dot line; with no
surviving entries the body is empty, leaving header, blank line, dot. -/
theorem prompt_rendering_shape (target_folder : PyPath)
    (files : List (PyPath × Option String)) (entries : List String)
    (h : bulkEntries target_folder files = some entries) :
    generate_prompt target_folder files =
      some ("My codebase includes" ++ "\n" ++ pyJoin ",\n" entries ++ "\n" ++ ".") ∧
    (entries = [] → generate_prompt target_folder files =
      some ("My codebase includes" ++ "\n" ++ "\n" ++ ".")) ∧
    (∀ e ∈ entries, ∃ ident contents, e = mkEntry ident contents) := by
  have hmain : generate_prompt target_folder files =
      some ("My codebase includes" ++ "\n" ++ pyJoin ",\n" entries ++ "\n" ++ ".") := by
    unfold generate_prompt
    rw [h]
    simp [pyJoin, String.append_assoc]
  refine ⟨hmain, ?_, ?_⟩
  · intro hnil
    rw [hmain, hnil]
    decide
  · intro e he
    obtain ⟨ident, contents, _, heq⟩ :=
      bulkEntries_mem_shape target_folder files entries h e he
    exact ⟨ident, contents, heq⟩

/-- Witness for C2: the spec scenario, a root with `a.txt` containing
`hello` and `b.txt` empty, renders to header, the one entry, and the dot
line. -/
theorem prompt_rendering_shape_witness :
    generate_prompt ⟨false, ["root"]⟩
      [(⟨false, ["root", "a.txt"]⟩, some "hello"), (⟨false, ["root", "b.txt"]⟩, some "")] =
    some ("My codebase includes" ++ "\n" ++ squoteStr ++ "a.txt" ++ squoteStr ++
      " with " ++ squoteStr ++ "hello" ++ squoteStr ++ "\n" ++ ".") := by
  have h := prompt_rendering_shape ⟨false, ["root"]⟩
    [(⟨false, ["root", "a.txt"]⟩, some "hello"), (⟨false, ["root", "b.txt"]⟩, some "")]
    [mkEntry "a.txt" "hello"] (by decide)
  rw [h.1]
  decide

/-- C3: no rendered entry, in bulk or individual mode, comes from a file
whose content strips to the empty string; a whitespace-only file such as
three spaces, newline, tab is skipped outright in both loops. -/
theorem no_whitespace_only_entries
    (target_folder : PyPath) (files : List (PyPath × Option String)) (entries : List String)
    (h : bulkEntries target_folder files = some entries) :
    (∀ e ∈ entries, ∃ ident contents, pyStrip contents ≠ "" ∧ e = mkEntry ident contents) ∧
    (∀ files2 : List (PyPath × Option String),
      ∀ e ∈ individualEntries files2,
        ∃ ident contents, pyStrip contents ≠ "" ∧ e = mkEntry ident contents) ∧
    (∀ (p : PyPath) (rest : List (PyPath × Option String)) (c : String),
      pyStrip c = "" →
      individualEntries ((p, some c) :: rest) = individualEntries rest) ∧
    (∀ (p : PyPath) (rest : List (PyPath × Option String)) (c : String) (rel : PyPath),
      p.relative_to target_folder = some rel → pyStrip c = "" →
      bulkEntries target_folder ((p, some c) :: rest) = bulkEntries target_folder rest) ∧
    pyStrip "   \n\t" = "" := by
  refine ⟨bulkEntries_mem_shape target_folder files entries h,
    fun files2 => individualEntries_mem_shape files2, ?_, ?_, by decide⟩
  · intro p rest c hc
    conv_lhs => unfold individualEntries
    dsimp only
    rw [if_pos hc]
  · intro p rest c rel hrel hc
    conv_lhs => unfold bulkEntries
    rw [hrel]
    dsimp only
    rw [if_pos hc]

/-- Witness for C3: a concrete whitespace-only file yields no entry in
either mode. -/
theorem no_whitespace_only_entries_witness :
    bulkEntries ⟨false, ["root"]⟩ [(⟨false, ["root", "w.txt"]⟩, some "   \n\t")] = some [] ∧
    individualEntries [(⟨false, ["w.txt"]⟩, some "   \n\t")] = [] := by
  have h := no_whitespace_only_entries ⟨false, ["root"]⟩
    [(⟨false, ["root", "w.txt"]⟩, some "   \n\t")] [] (by decide)
  constructor
  · rw [h.2.2.2.1 ⟨false, ["root", "w.txt"]⟩ [] "   \n\t" ⟨false, ["w.txt"]⟩
      (by decide) (by decide)]
    rfl
  · rw [h.2.2.1 ⟨false, ["w.txt"]⟩ [] "   \n\t" (by decide)]
    rfl

/-- C8: a failed read is non-fatal in both serializer loops: the entry is
skipped and the remaining files still contribute, so the result equals the
result with the failing file removed. -/
theorem read_failure_is_non_fatal (target_folder : PyPath)
    (pre post : List (PyPath × Option String)) (p : PyPath) (rel : PyPath)
    (hrel : p.relative_to target_folder = some rel) :
    bulkEntries target_folder (pre ++ (p, none) :: post) =
      bulkEntries target_folder (pre ++ post) ∧
    individualEntries (pre ++ (p, none) :: post) = individualEntries (pre ++ post) := by
  induction pre with
  | nil =>
    constructor
    · show bulkEntries target_folder ((p, none) :: post) = bulkEntries target_folder post
      conv_lhs => unfold bulkEntries
      rw [hrel]
    · rfl
  | cons head tail ih =>
    obtain ⟨ih1, ih2⟩ := ih
    obtain ⟨q, r⟩ := head
    constructor
    · show bulkEntries target_folder ((q, r) :: (tail ++ (p, none) :: post)) =
        bulkEntries target_folder ((q, r) :: (tail ++ post))
      unfold bulkEntries
      cases hq : q.relative_to target_folder with
      | none => rfl
      | some relq =>
        cases r with
        | none => exact ih1
        | some c =>
          dsimp only
          by_cases hc : pyStrip c = ""
          · rw [if_pos hc, if_pos hc]
            exact ih1
          · rw [if_neg hc, if_neg hc, ih1]
    · show individualEntries ((q, r) :: (tail ++ (p, none) :: post)) =
        individualEntries ((q, r) :: (tail ++ post))
      unfold individualEntries
      cases r with
      | none => exact ih2
      | some c =>
        dsimp only
        by_cases hc : pyStrip c = ""
        · rw [if_pos hc, if_pos hc]
          exact ih2
        · rw [if_neg hc, if_neg hc, ih2]

/-- Witness for C8: with a failing read between two good files, both loops
produce exactly the entries of the two good files. -/
theorem read_failure_is_non_fatal_witness :
    bulkEntries ⟨false, ["root"]⟩
      [(⟨false, ["root", "a.txt"]⟩, some "alpha"),
       (⟨false, ["root", "bad.txt"]⟩, none),
       (⟨false, ["root", "c.txt"]⟩, some "gamma")] =
      some [mkEntry "a.txt" "alpha", mkEntry "c.txt" "gamma"] ∧
    individualEntries
      [(⟨false, ["a.txt"]⟩, some "alpha"),
       (⟨false, ["bad.txt"]⟩, none),
       (⟨false, ["c.txt"]⟩, some "gamma")] =
      [mkEntry "a.txt" "alpha", mkEntry "c.txt" "gamma"] := by
  have h := read_failure_is_non_fatal ⟨false, ["root"]⟩
    [(⟨false, ["root", "a.txt"]⟩, some "alpha")]
    [(⟨false, ["root", "c.txt"]⟩, some "gamma")]
    ⟨false, ["root", "bad.txt"]⟩ ⟨false, ["bad.txt"]⟩ (by decide)
  constructor
  · rw [show ([(⟨false, ["root", "a.txt"]⟩, some "alpha"),
        (⟨false, ["root", "bad.txt"]⟩, none),
        (⟨false, ["root", "c.txt"]⟩, some "gamma")] :
          List (PyPath × Option String)) =
        [(⟨false, ["root", "a.txt"]⟩, some "alpha")] ++
          (⟨false, ["root", "bad.txt"]⟩, none) ::
          [(⟨false, ["root", "c.txt"]⟩, some "gamma")] from rfl, h.1]
    decide
  · have h2 := read_failure_is_non_fatal ⟨false, []⟩
      [(⟨false, ["a.txt"]⟩, some "alpha")]
      [(⟨false, ["c.txt"]⟩, some "gamma")]
      ⟨false, ["bad.txt"]⟩ ⟨false, ["bad.txt"]⟩ (by decide)
    rw [show ([(⟨false, ["a.txt"]⟩, some "alpha"),
        (⟨false, ["bad.txt"]⟩, none),
        (⟨false, ["c.txt"]⟩, some "gamma")] :
          List (PyPath × Option String)) =
        [(⟨false, ["a.txt"]⟩, some "alpha")] ++
          (⟨false, ["bad.txt"]⟩, none) ::
          [(⟨false, ["c.txt"]⟩, some "gamma")] from rfl, h2.2]
    decide

/-- When the two file lists line up (bulk identifier equals the individual
identifier and the read outcomes agree), the two entry loops agree too. -/
theorem entries_equiv (target_folder : PyPath)
    (bf indf : List (PyPath × Option String))
    (h : List.Forall₂ (fun fb fi =>
      (∃ rel, fb.1.relative_to target_folder = some rel ∧ rel.as_posix = fi.1.toStr) ∧
      fb.2 = fi.2) bf indf) :
    bulkEntries target_folder bf = some (individualEntries indf) := by
  induction h with
  | nil => rfl
  | @cons fb fi bf2 indf2 hpair hrest ih =>
    obtain ⟨pb, rb⟩ := fb
    obtain ⟨pq, rq⟩ := fi
    obtain ⟨⟨rel, hrel, hid⟩, hread⟩ := hpair
    dsimp only at hrel hid hread
    subst hread
    show bulkEntries target_folder ((pb, rb) :: bf2) =
      some (individualEntries ((pq, rb) :: indf2))
    conv_lhs => unfold bulkEntries
    conv_rhs => unfold individualEntries
    rw [hrel]
    cases rb with
    | none => exact ih
    | some c =>
      dsimp only
      by_cases hc : pyStrip c = ""
      · rw [if_pos hc, if_pos hc]
        exact ih
      · rw [if_neg hc, if_neg hc, ih, hid]
        rfl

/-- C9: the two serializer variants are equivalent: when each bulk file's
root-relative posix identifier equals the corresponding individual file's
supplied path string and the read outcomes agree, the two rendered prompts
are the same string. -/
theorem serializer_variants_equivalent (target_folder : PyPath)
    (bf indf : List (PyPath × Option String))
    (h : List.Forall₂ (fun fb fi =>
      (∃ rel, fb.1.relative_to target_folder = some rel ∧ rel.as_posix = fi.1.toStr) ∧
      fb.2 = fi.2) bf indf) :
    generate_prompt target_folder bf = some (generate_prompt_individual indf) := by
  unfold generate_prompt generate_prompt_individual
  rw [entries_equiv target_folder bf indf h]
  rfl

/-- Witness for C9: a concrete aligned pair of file lists renders to the
same prompt in both modes. -/
theorem serializer_variants_equivalent_witness :
    generate_prompt ⟨false, ["root"]⟩
      [(⟨false, ["root", "a.txt"]⟩, some "hello"), (⟨false, ["root", "bad.txt"]⟩, none)] =
    some (generate_prompt_individual
      [(⟨false, ["a.txt"]⟩, some "hello"), (⟨false, ["bad.txt"]⟩, none)]) := by
  apply serializer_variants_equivalent
  refine List.Forall₂.cons ⟨⟨⟨false, ["a.txt"]⟩, by decide, by decide⟩, rfl⟩ ?_
  exact List.Forall₂.cons ⟨⟨⟨false, ["bad.txt"]⟩, by decide, by decide⟩, rfl⟩ List.Forall₂.nil

/-- In the escaped character list, every single quote is immediately
preceded by a backslash. -/
theorem escapeChars_quote_preceded :
    ∀ (l l1 l2 : List Char), escapeChars l = l1 ++ squote :: l2 →
      ∃ l0, l1 = l0 ++ [bslash]
  | [], l1, l2, h => by
    exfalso
    have hnil : ([] : List Char) = l1 ++ squote :: l2 := h
    simp at hnil
  | c :: cs, l1, l2, h => by
    have hcons : escapeStep c ++ escapeChars cs = l1 ++ squote :: l2 := h
    by_cases hc : c = squote
    · rw [escapeStep, if_pos hc] at hcons
      cases l1 with
      | nil =>
        injection hcons with h1 _
        exact absurd h1 (by decide)
      | cons a l1t =>
        injection hcons with h1 h2
        cases l1t with
        | nil => exact ⟨[], by rw [← h1]; rfl⟩
        | cons b l1tt =>
          injection h2 with h3 h4
          obtain ⟨l0, hl0⟩ := escapeChars_quote_preceded cs l1tt l2 h4
          exact ⟨a :: b :: l0, by rw [hl0]; rfl⟩
    · rw [escapeStep, if_neg hc] at hcons
      cases l1 with
      | nil =>
        injection hcons with h1 _
        exact absurd h1 hc
      | cons a l1t =>
        injection hcons with h1 h2
        obtain ⟨l0, hl0⟩ := escapeChars_quote_preceded cs l1t l2 h2
        exact ⟨a :: l0, by rw [hl0]; rfl⟩

/-- C5: every literal single quote in identifier and content is escaped by
prefixing a backslash: wherever a single quote occurs in the replaced text a
backslash immediately precedes it, the content `Its` with a quote before the
`s` renders with a backslash inserted, and identifiers go through the same
replacement as contents inside an entry. -/
theorem single_quotes_escaped (s : String) (l1 l2 : List Char)
    (h : (pyReplaceQuote s).data = l1 ++ squote :: l2) :
    (∃ l0, l1 = l0 ++ [bslash]) ∧
    pyReplaceQuote ("It" ++ squoteStr ++ "s") = "It" ++ bslashStr ++ squoteStr ++ "s" ∧
    (∀ ident contents, mkEntry ident contents =
      squoteStr ++ pyReplaceQuote ident ++ squoteStr ++ " with " ++ squoteStr ++
        pyReplaceQuote contents ++ squoteStr) := by
  refine ⟨?_, by decide, fun _ _ => rfl⟩
  exact escapeChars_quote_preceded s.data l1 l2 h

/-- Witness for C5: the escaped form of a concrete one-quote string has the
backslash right before the quote. -/
theorem single_quotes_escaped_witness :
    ∃ l0 : List Char, [Char.ofNat 97, bslash] = l0 ++ [bslash] :=
  (single_quotes_escaped (String.mk [Char.ofNat 97, squote])
    [Char.ofNat 97, bslash] [] (by decide)).1

/-- Dropping while a predicate holds is idempotent. -/
theorem dropWhile_twice {α : Type} (p : α → Bool) :
    ∀ l : List α, (l.dropWhile p).dropWhile p = l.dropWhile p
  | [] => rfl
  | a :: l => by
    by_cases h : p a
    · rw [List.dropWhile_cons, if_pos h]
      exact dropWhile_twice p l
    · rw [List.dropWhile_cons, if_neg h, List.dropWhile_cons, if_neg h]

/-- The first element surviving `dropWhile` fails the predicate. -/
theorem dropWhile_head_not {α : Type} (p : α → Bool) :
    ∀ (l : List α) (c : α), (l.dropWhile p).head? = some c → p c = false
  | [], c, h => by simp [List.dropWhile] at h
  | a :: l, c, h => by
    by_cases ha : p a
    · rw [List.dropWhile_cons, if_pos ha] at h
      exact dropWhile_head_not p l c h
    · rw [List.dropWhile_cons, if_neg ha] at h
      injection h with h1
      rw [← h1]
      exact Bool.of_not_eq_true ha

/-- `dropWhile` is the identity when the head already fails the predicate. -/
theorem dropWhile_eq_self_of_head {α : Type} (p : α → Bool) (l : List α)
    (h : ∀ c, l.head? = some c → p c = false) : l.dropWhile p = l := by
  cases l with
  | nil => rfl
  | cons a t =>
    have ha : p a = false := h a rfl
    simp [List.dropWhile_cons, ha]

/-- The right-trimmed list is a prefix of the original. -/
theorem reverse_dropWhile_reverse_isPre {α : Type} (p : α → Bool) (l : List α) :
    ((l.reverse.dropWhile p).reverse) <+: l := by
  have hsuf : l.reverse.dropWhile p <:+ l.reverse := by
    induction l.reverse with
    | nil => exact List.suffix_rfl
    | cons a t ih =>
      rw [List.dropWhile_cons]
      by_cases ha : p a
      · rw [if_pos ha]
        exact ih.trans (List.suffix_cons a t)
      · rw [if_neg ha]
  have := List.reverse_prefix.mpr hsuf
  simpa using this

/-- Stripping whitespace is idempotent. -/
theorem stripChars_idem (l : List Char) : stripChars (stripChars l) = stripChars l := by
  unfold stripChars
  set m := l.dropWhile pyIsSpace with hm
  set r := (m.reverse.dropWhile pyIsSpace).reverse with hr
  have hstep1 : r.dropWhile pyIsSpace = r := by
    apply dropWhile_eq_self_of_head
    intro c hc
    have hpre : r <+: m := hr ▸ reverse_dropWhile_reverse_isPre pyIsSpace m
    obtain ⟨t, ht⟩ := hpre
    cases hr2 : r with
    | nil => rw [hr2] at hc; simp at hc
    | cons b rt =>
      rw [hr2] at hc
      injection hc with hbc
      have hmt : m = b :: (rt ++ t) := by rw [← ht, hr2]; rfl
      have hmhead : m.head? = some b := by rw [hmt]; rfl
      rw [hm] at hmhead
      have hpb := dropWhile_head_not pyIsSpace l b hmhead
      rw [← hbc]
      exact hpb
  rw [hstep1, List.reverse_reverse, dropWhile_twice]

/-- `splitNl` never returns the empty list of pieces. -/
theorem splitNl_ne_nil : ∀ l : List Char, splitNl l ≠ []
  | [] => by simp [splitNl]
  | c :: cs => by
    unfold splitNl
    cases hs : splitNl cs with
    | nil => simp
    | cons h t =>
      by_cases hc : c = nlChar
      · simp [hc]
      · simp [hc]

/-- No piece produced by `splitNl` contains a newline. -/
theorem splitNl_no_newline : ∀ (l : List Char), ∀ piece ∈ splitNl l, nlChar ∉ piece
  | [], piece, hmem => by
    simp [splitNl] at hmem
    simp [hmem]
  | c :: cs, piece, hmem => by
    unfold splitNl at hmem
    cases hs : splitNl cs with
    | nil => exact absurd hs (splitNl_ne_nil cs)
    | cons h t =>
      rw [hs] at hmem
      dsimp only at hmem
      by_cases hc : c = nlChar
      · rw [if_pos hc] at hmem
        rcases List.mem_cons.mp hmem with hp | hp
        · simp [hp]
        · exact splitNl_no_newline cs piece (hs ▸ hp)
      · rw [if_neg hc] at hmem
        rcases List.mem_cons.mp hmem with hp | hp
        · subst hp
          intro hin
          rcases List.mem_cons.mp hin with h1 | h1
          · exact hc h1.symm
          · exact splitNl_no_newline cs h (hs ▸ List.mem_cons_self h t) h1
        · exact splitNl_no_newline cs piece (hs ▸ List.mem_cons.mpr (Or.inr hp))

/-- Splitting at an explicit newline peels off the first piece. -/
theorem splitNl_append (p rest : List Char) (hp : nlChar ∉ p) :
    splitNl (p ++ nlChar :: rest) = p :: splitNl rest := by
  induction p with
  | nil =>
    show splitNl (nlChar :: rest) = [] :: splitNl rest
    conv_lhs => unfold splitNl
    cases hs : splitNl rest with
    | nil => exact absurd hs (splitNl_ne_nil rest)
    | cons h t => simp
  | cons c p' ih =>
    have hc : c ≠ nlChar := fun h => hp (h ▸ List.mem_cons_self c p')
    have hp' : nlChar ∉ p' := fun h => hp (List.mem_cons.mpr (Or.inr h))
    show splitNl (c :: (p' ++ nlChar :: rest)) = (c :: p') :: splitNl rest
    conv_lhs => unfold splitNl
    rw [ih hp']
    simp [hc]

/-- The character data of the saved text: each pattern followed by a
newline, concatenated. -/
theorem pyJoin_lines_data : ∀ ps : List String,
    (pyJoin "" (ps.map (fun p => p ++ "\n"))).data =
      ps.foldr (fun p acc => p.data ++ nlChar :: acc) []
  | [] => rfl
  | [x] => by
    show (x ++ "\n").data = x.data ++ nlChar :: []
    rw [String.data_append]
    congr 1
  | x :: y :: r => by
    show (x ++ "\n" ++ "" ++ pyJoin "" ((y :: r).map (fun p => p ++ "\n"))).data =
      x.data ++ nlChar :: ((y :: r).foldr (fun p acc => p.data ++ nlChar :: acc) [])
    rw [String.data_append, String.data_append, String.data_append,
      pyJoin_lines_data (y :: r)]
    have hn : ("\n").data = [nlChar] := by decide
    have he : ("".data : List Char) = [] := rfl
    rw [hn, he]
    simp

/-- Splitting the concatenated pattern-plus-newline text recovers the
patterns (plus the empty piece after the final newline). -/
theorem splitNl_foldr : ∀ ps : List String, (∀ x ∈ ps, nlChar ∉ x.data) →
    splitNl (ps.foldr (fun p acc => p.data ++ nlChar :: acc) []) =
      ps.map String.data ++ [[]]
  | [], _ => rfl
  | p :: ps, h => by
    show splitNl (p.data ++ nlChar :: ps.foldr (fun q acc => q.data ++ nlChar :: acc) []) =
      (p.data :: ps.map String.data) ++ [[]]
    rw [splitNl_append p.data _ (h p (List.mem_cons_self p ps)),
      splitNl_foldr ps (fun x hx => h x (List.mem_cons.mpr (Or.inr hx)))]
    rfl

/-- Loading the saved text of a list of clean patterns gives back exactly
that list. -/
theorem load_of_clean_lines (ps : List String)
    (hnl : ∀ x ∈ ps, nlChar ∉ x.data)
    (hstrip : ∀ x ∈ ps, pyStrip x = x)
    (hne : ∀ x ∈ ps, x ≠ "")
    (hnd : ps.Nodup) :
    load_ignore_paths (some (pyJoin "" (ps.map (fun p => p ++ "\n")))) = ps := by
  unfold load_ignore_paths fileLines
  dsimp only
  rw [pyJoin_lines_data, splitNl_foldr ps hnl]
  have hmapmk : (ps.map String.data ++ [([] : List Char)]).map String.mk = ps ++ [""] := by
    rw [List.map_append, List.map_map]
    have h1 : ps.map (String.mk ∘ String.data) = ps := by
      have hid : ∀ x ∈ ps, (String.mk ∘ String.data) x = id x := fun x _ => rfl
      rw [List.map_congr_left hid, List.map_id]
    rw [h1]
    rfl
  rw [hmapmk, List.map_append]
  have hmapstrip : ps.map pyStrip = ps := by
    have : ∀ x ∈ ps, pyStrip x = id x := fun x hx => hstrip x hx
    rw [List.map_congr_left this, List.map_id]
  have hstripnil : ([""] : List String).map pyStrip = [""] := rfl
  rw [hmapstrip, hstripnil, List.filter_append]
  have hfself : ps.filter (fun l => l ≠ "") = ps :=
    List.filter_eq_self.mpr (fun a ha => by simpa using hne a ha)
  have hfnil : ([""] : List String).filter (fun l => l ≠ "") = [] := rfl
  rw [hfself, hfnil, List.append_nil]
  exact List.dedup_eq_self.mpr hnd

/-- Stripping yields a sublist of the original character list. -/
theorem stripChars_sublist (l : List Char) : (stripChars l).Sublist l := by
  unfold stripChars
  have h1 : (l.dropWhile pyIsSpace).Sublist l := List.dropWhile_sublist pyIsSpace
  have h2 : ((l.dropWhile pyIsSpace).reverse.dropWhile pyIsSpace).Sublist
      (l.dropWhile pyIsSpace).reverse := List.dropWhile_sublist pyIsSpace
  have h3 : (((l.dropWhile pyIsSpace).reverse.dropWhile pyIsSpace).reverse).Sublist
      (l.dropWhile pyIsSpace) := by
    have := List.reverse_sublist.mpr h2
    simpa using this
  exact h3.trans h1

/-- `pyStrip` is idempotent. -/
theorem pyStrip_idem (s : String) : pyStrip (pyStrip s) = pyStrip s := by
  unfold pyStrip
  congr 1
  exact stripChars_idem s.data

/-- Every pattern produced by loading the ignore file is non-empty, already
stripped, and newline-free. -/
theorem mem_load_ignore_paths_props (s x : String)
    (hx : x ∈ load_ignore_paths (some s)) :
    x ≠ "" ∧ pyStrip x = x ∧ nlChar ∉ x.data := by
  unfold load_ignore_paths at hx
  dsimp only at hx
  rw [List.mem_dedup, List.mem_filter] at hx
  obtain ⟨hmem, hne⟩ := hx
  rw [List.mem_map] at hmem
  obtain ⟨line, hline, hlx⟩ := hmem
  refine ⟨by simpa using hne, ?_, ?_⟩
  · rw [← hlx]
    exact pyStrip_idem line
  · unfold fileLines at hline
    rw [List.mem_map] at hline
    obtain ⟨piece, hpiece, hpl⟩ := hline
    have hnop : nlChar ∉ piece := splitNl_no_newline s.data piece hpiece
    have hxdata : x.data = stripChars piece := by
      rw [← hlx, ← hpl]
      rfl
    rw [hxdata]
    intro hin
    exact hnop ((stripChars_sublist piece).subset hin)

/-- C6: round-trip of the ignore-set store: saving what was loaded rewrites
the same pattern set (the resulting file loads to the lexicographically
sorted patterns, equal as a set to the original load), and a missing ignore
file loads as the empty set without error. -/
theorem ignore_store_roundtrip (s : String) :
    load_ignore_paths (some (save_ignore_paths (load_ignore_paths (some s)))) =
      pySorted (load_ignore_paths (some s)) ∧
    (∀ x : String,
      x ∈ load_ignore_paths (some (save_ignore_paths (load_ignore_paths (some s)))) ↔
      x ∈ load_ignore_paths (some s)) ∧
    load_ignore_paths none = [] := by
  set qs := load_ignore_paths (some s) with hqs
  have hperm : (pySorted qs).Perm qs := List.perm_insertionSort _ qs
  have hprops : ∀ x ∈ qs, x ≠ "" ∧ pyStrip x = x ∧ nlChar ∉ x.data :=
    fun x hx => mem_load_ignore_paths_props s x (hqs ▸ hx)
  have hnodup : qs.Nodup := by
    rw [hqs]
    unfold load_ignore_paths
    dsimp only
    exact List.nodup_dedup _
  have hmain : load_ignore_paths (some (save_ignore_paths qs)) = pySorted qs := by
    unfold save_ignore_paths
    exact load_of_clean_lines (pySorted qs)
      (fun x hx => (hprops x (hperm.mem_iff.mp hx)).2.2)
      (fun x hx => (hprops x (hperm.mem_iff.mp hx)).2.1)
      (fun x hx => (hprops x (hperm.mem_iff.mp hx)).1)
      (hperm.nodup_iff.mpr hnodup)
  refine ⟨hmain, fun x => ?_, rfl⟩
  rw [hmain]
  exact hperm.mem_iff
